import Mathlib

/-!
A shallow embedding of `generate_awesome_list.py`, the script that turns a
user's starred GitHub repositories into a categorized awesome-list README.

Conventions of the embedding:
* A repository record mirrors the jq projection used by `fetch_starred_repos`.
* Timestamps: the Python code stores `pushed_at` as an ISO-8601 string and
  parses it with `datetime.fromisoformat`.  We abstract the string by its
  parse outcome: `none` models an absent (or empty, hence falsy) field,
  `some none` a present string that `fromisoformat` rejects, and
  `some (some t)` a string that parses to the instant `t`, measured in
  seconds.  A `timedelta` of `d` days becomes `d * 86400` seconds and the
  `.days` attribute of a difference becomes floor division by `86400`,
  matching Python's flooring normalization of `timedelta`.
* Python's insertion-ordered `dict` of categories becomes an ordered list;
  the mutable `repos` buckets of `CATEGORIES` become a separate association
  list threaded through `generate_readme` as explicit state.
-/

/-- A starred-repository record, fields as selected by the `gh api` jq filter
in `fetch_starred_repos`.  `description`, `language` and `homepage` may be
JSON `null`, hence `Option`. -/
structure Repo where
  name : String
  full_name : String
  description : Option String
  language : Option String
  stargazers_count : Nat
  topics : List String
  pushed_at : Option (Option Int)
  archived : Bool
  homepage : Option String
  html_url : String
  deriving Repr, DecidableEq

/-- One entry of the `CATEGORIES` table: an identifier, a display title and
the classification keywords.  The mutable `repos` bucket is kept separately
(see `CatState`). -/
structure Category where
  id : String
  title : String
  keywords : List String
  deriving Repr, DecidableEq

def aiMl : Category :=
  { id := "ai-ml", title := "🤖 AI & Machine Learning",
    keywords := ["ai", "machine-learning", "deep-learning", "llm", "gpt", "openai",
                 "claude", "ai-agent", "artificial-intelligence", "chatgpt", "neural",
                 "transformer", "bert", "pytorch", "tensorflow", "anthropic", "gemini"] }

def webFrontend : Category :=
  { id := "web-frontend", title := "🌐 Web Development - Frontend",
    keywords := ["react", "vue", "angular", "svelte", "frontend", "nextjs", "remix",
                 "solid", "preact", "astro", "qwik", "ui", "components", "tailwindcss"] }

def webFullstack : Category :=
  { id := "web-fullstack", title := "🌐 Web Development - Full-Stack",
    keywords := ["nextjs", "remix", "nuxt", "sveltekit", "full-stack", "fullstack",
                 "web-framework", "ssr", "server-side-rendering"] }

def backendApi : Category :=
  { id := "backend-api", title := "⚙️ Backend & APIs",
    keywords := ["backend", "api", "rest", "graphql", "grpc", "express", "fastapi",
                 "flask", "django", "nestjs", "fastify", "gin", "actix", "axum",
                 "database", "orm", "prisma", "drizzle", "typeorm", "authentication"] }

def devops : Category :=
  { id := "devops", title := "🚀 DevOps & Infrastructure",
    keywords := ["docker", "kubernetes", "k8s", "devops", "ci-cd", "deployment",
                 "infrastructure", "terraform", "ansible", "monitoring", "observability",
                 "prometheus", "grafana", "cicd", "github-actions", "gitlab-ci"] }

def devTools : Category :=
  { id := "dev-tools", title := "🛠️ Developer Tools",
    keywords := ["cli", "terminal", "command-line", "shell", "vscode", "editor",
                 "extension", "plugin", "testing", "test", "jest", "vitest", "cypress",
                 "playwright", "git", "linter", "formatter", "prettier", "eslint"] }

def dataAnalytics : Category :=
  { id := "data-analytics", title := "📊 Data & Analytics",
    keywords := ["data-science", "data-analysis", "visualization", "analytics",
                 "jupyter", "pandas", "numpy", "plotly", "d3", "chart", "dashboard",
                 "business-intelligence", "bi", "data-visualization"] }

def mobile : Category :=
  { id := "mobile", title := "📱 Mobile Development",
    keywords := ["react-native", "flutter", "mobile", "ios", "android", "expo",
                 "kotlin", "swift", "mobile-app"] }

def designCreative : Category :=
  { id := "design-creative", title := "🎨 Design & Creative",
    keywords := ["design", "animation", "3d", "graphics", "svg", "canvas", "webgl",
                 "three", "threejs", "framer", "motion", "gsap", "icon", "figma"] }

def learning : Category :=
  { id := "learning", title := "📚 Learning & Resources",
    keywords := ["awesome", "awesome-list", "tutorial", "guide", "learning",
                 "education", "course", "book", "documentation", "cheatsheet",
                 "examples", "resources"] }

def security : Category :=
  { id := "security", title := "🔒 Security & Privacy",
    keywords := ["security", "privacy", "encryption", "cryptography", "vulnerability",
                 "penetration-testing", "infosec", "cybersecurity", "auth", "oauth"] }

def utilities : Category :=
  { id := "utilities", title := "🔧 Utilities & Miscellaneous", keywords := [] }

/-- The `CATEGORIES` table in its Python declaration order (an insertion-ordered
`dict` in the source). -/
def CATEGORIES : List Category :=
  [aiMl, webFrontend, webFullstack, backendApi, devops, devTools,
   dataAnalytics, mobile, designCreative, learning, security, utilities]

/-- `isPrefixList n h` holds when the char list `n` is an initial segment of `h`. -/
def isPrefixList : List Char → List Char → Bool
  | [], _ => true
  | _ :: _, [] => false
  | a :: ns, b :: hs => a == b && isPrefixList ns hs

/-- `containsList n h`: the char list `n` occurs contiguously inside `h`
(Python's `n in h` on strings). -/
def containsList (needle : List Char) : List Char → Bool
  | [] => needle.isEmpty
  | b :: t => isPrefixList needle (b :: t) || containsList needle t

/-- Python's substring test `needle in hay`. -/
def strContains (hay needle : String) : Bool :=
  containsList needle.data hay.data

/-- Python truthiness-based default: `s or d` for an optional string, where
`None` and the empty string are falsy. -/
def pyStrOr (s : Option String) (d : String) : String :=
  match s with
  | none => d
  | some t => if t = "" then d else t

/-- Python's `str.lower()`: lowercase each character. -/
def pyLower (s : String) : String :=
  String.mk (s.data.map Char.toLower)

/-- The combined searchable text of `categorize_repo`:
`' '.join(topics + [description.lower(), language.lower()])`, where a missing
description or language contributes the empty string. -/
def searchText (repo : Repo) : String :=
  String.intercalate " "
    (repo.topics ++ [pyLower (repo.description.getD ""), pyLower (repo.language.getD "")])

/-- Number of keywords of category `c` occurring as substrings of `text`
(the per-category tally accumulated in the `scores` defaultdict). -/
def catScoreText (text : String) (c : Category) : Nat :=
  c.keywords.countP (fun k => strContains text k)

/-- The score `categorize_repo` gives category `c` on `repo`. -/
def catScore (repo : Repo) (c : Category) : Nat :=
  catScoreText (searchText repo) c

/-- The candidate categories of the scoring loop: every category except the
`utilities` catch-all, which the loop explicitly skips, in declaration order. -/
def nonUtilityCategories : List Category :=
  CATEGORIES.filter (fun c => c.id ≠ "utilities")

/-- The contents of the `scores` defaultdict after the loop, in insertion
order: each non-utility category that matched at least one keyword appears,
in declaration order, paired with its (positive) score. -/
def scoreList (repo : Repo) : List (Category × Nat) :=
  nonUtilityCategories.filterMap (fun c =>
    let s := catScore repo c
    if s = 0 then none else some (c, s))

/-- Python's `max` over key-valued items: the first element of the list whose
value component attains the maximum (`max` only replaces its champion on a
strictly greater key), or `none` on the empty list. -/
def pickMax : List (Category × Nat) → Option (Category × Nat)
  | [] => none
  | p :: rest =>
    match pickMax rest with
    | none => some p
    | some q => if p.2 < q.2 then some q else some p

/-- `categorize_repo`: the id of the first category attaining the maximal
nonzero score, or `"utilities"` when no keyword of any category matched. -/
def categorize_repo (repo : Repo) : String :=
  match pickMax (scoreList repo) with
  | some (c, _) => c.id
  | none => "utilities"

def secondsPerDay : Int := 86400

/-- `is_inactive`: archived, missing timestamp, or unparsable timestamp means
inactive; otherwise inactive exactly when the pushed instant is strictly
before `now - months * 30` days. -/
def is_inactive (now : Int) (repo : Repo) (months : Int) : Bool :=
  if repo.archived then true
  else
    match repo.pushed_at with
    | none => true
    | some none => true
    | some (some t) => decide (t < now - months * 30 * secondsPerDay)

/-- Elapsed whole days between the instant `t` and `now`:
`(now - pushed_date).days`, which floors. -/
def daysAgo (now t : Int) : Int :=
  Int.fdiv (now - t) secondsPerDay

/-- The activity-badge suffix of `format_repo_entry` (lines 181-193): requires
`show_activity` and a present, parsable timestamp; then `" 🔥"` under 30 days,
`" ⚡"` under 90 days, and empty otherwise.  A parse failure is swallowed
(`except: pass`), leaving the empty suffix. -/
def activityBadge (now : Int) (repo : Repo) (show_activity : Bool) : String :=
  if show_activity then
    match repo.pushed_at with
    | some (some t) =>
      if daysAgo now t < 30 then " 🔥"
      else if daysAgo now t < 90 then " ⚡"
      else ""
    | _ => ""
  else ""

/-- ASCII whitespace recognized by Python's `str.strip()`. -/
def isSpaceChar (c : Char) : Bool :=
  c == ' ' || c == '\t' || c == '\n' || c == '\r'

/-- Python's `str.strip()`: drop leading and trailing whitespace. -/
def pyStrip (s : String) : String :=
  String.mk (((s.data.dropWhile isSpaceChar).reverse.dropWhile isSpaceChar).reverse)

/-- Walking a reversed digit list, insert a comma before each char that
starts a new group of three; the counter holds the chars left in the current
group. -/
def commaAux : Nat → List Char → List Char
  | _, [] => []
  | 0, a :: rest => ',' :: a :: commaAux 2 rest
  | Nat.succ k, a :: rest => a :: commaAux k rest

/-- Python's `f"{n:,}"` for a nonnegative integer: decimal digits with
thousands separators every three digits from the right. -/
def formatThousands (n : Nat) : String :=
  String.mk (commaAux 3 (Nat.repr n).data.reverse).reverse

/-- `format_repo_entry`: one markdown bullet for a record.  The description
defaults to the placeholder only when the raw field is falsy (`None` or
empty); the stripped text is then appended only when nonempty.  The language
tag is shown when the field is truthy and not `"Unknown"`. -/
def format_repo_entry (now : Int) (repo : Repo) (show_activity : Bool) : String :=
  let description := pyStrip (pyStrOr repo.description "No description provided")
  let activity := activityBadge now repo show_activity
  let entry := "- [" ++ repo.name ++ "](" ++ repo.html_url ++ ")"
  let entry := if description ≠ "" then entry ++ " - " ++ description else entry
  let entry := entry ++ " ⭐" ++ formatThousands repo.stargazers_count
  let entry :=
    match repo.language with
    | some l => if l ≠ "" ∧ l ≠ "Unknown" then entry ++ " `" ++ l ++ "`" else entry
    | none => entry
  entry ++ activity

/-- The ordering of `repos.sort` keyed on stars with reverse set: `a` precedes
`b` when `a` has at least as many stars.  Python's sort is stable, and a
stable sort by a key is unique, so `List.insertionSort` by this (total,
transitive) relation computes the same reordering. -/
def starsGe (a b : Repo) : Prop :=
  b.stargazers_count ≤ a.stargazers_count

instance : DecidableRel starsGe := fun _ b =>
  Nat.decLe b.stargazers_count _

instance : IsTotal Repo starsGe :=
  ⟨fun a b => Nat.le_total b.stargazers_count a.stargazers_count⟩

instance : IsTrans Repo starsGe :=
  ⟨fun _ _ _ h1 h2 => le_trans h2 h1⟩

/-- Stable descending-by-stars sort used for category buckets and the
legacy list. -/
def sortByStars (l : List Repo) : List Repo :=
  List.insertionSort starsGe l

/-- The mutable `repos` buckets of the module-global `CATEGORIES` dict:
an association list from category id to its accumulated records, whose keys
stay the `CATEGORIES` ids in declaration order. -/
abbrev CatState := List (String × List Repo)

/-- The buckets at module load: every category starts with `repos = []`. -/
def initState : CatState :=
  CATEGORIES.map (fun c => (c.id, []))

/-- `CATEGORIES[cid]['repos'].append(r)`: append `r` at the end of the bucket
keyed `cid`, leaving the other buckets alone. -/
def appendRepo (st : CatState) (cid : String) (r : Repo) : CatState :=
  st.map (fun p => if p.1 = cid then (p.1, p.2 ++ [r]) else p)

/-- Display title of a category id. -/
def titleOf (cid : String) : String :=
  ((CATEGORIES.find? (fun c => c.id == cid)).map Category.title).getD cid

/-- The generated README, kept structured just before `'\n'.join`: the
three counts of the header, the table of contents (title and project count of each
listed category), one section per nonempty category holding its sorted
records, and the sorted legacy list. -/
structure Doc where
  total : Nat
  activeCount : Nat
  inactiveCount : Nat
  toc : List (String × Nat)
  sections : List (String × List Repo)
  legacy : List Repo
  deriving Repr, DecidableEq

/-- `generate_readme`: split the input into active and inactive, append each
active record to the bucket of its category (mutating the module-global
state, here threaded explicitly), sort every bucket and the inactive list by
stars descending (also in place), and emit the document.  The table of
contents lists nonempty categories plus always `utilities`; sections skip
empty buckets.  Returns the mutated global state alongside the document. -/
def generate_readme (now : Int) (st : CatState) (repos : List Repo) :
    CatState × Doc :=
  let active := repos.filter (fun r => !is_inactive now r 12)
  let inactive := repos.filter (fun r => is_inactive now r 12)
  let st1 := active.foldl (fun s r => appendRepo s (categorize_repo r) r) st
  let st2 := st1.map (fun p => (p.1, sortByStars p.2))
  (st2,
   { total := repos.length
     activeCount := active.length
     inactiveCount := inactive.length
     toc := st2.filterMap (fun p =>
       if !p.2.isEmpty || p.1 == "utilities" then some (titleOf p.1, p.2.length) else none)
     sections := st2.filterMap (fun p =>
       if p.2.isEmpty then none else some (titleOf p.1, p.2))
     legacy := sortByStars inactive })

/-- A record whose only keyword hit is the substring `"ai"` inside the words
of its description. -/
def aisleRepo : Repo :=
  { name := "aisle-demo", full_name := "u/aisle-demo", description := some "Contains Aisle",
    language := none, stargazers_count := 5, topics := [],
    pushed_at := some (some 0), archived := false, homepage := none,
    html_url := "https://e/aisle-demo" }

/-- Claim C2: the activity classifier returns inactive exactly when the
archived flag is set, or the last-push timestamp is absent, or it fails to
parse, or the parsed instant is strictly older than `now` minus
`months * 30` days; otherwise it returns active. -/
theorem C2_is_inactive_iff (now months : Int) (repo : Repo) :
    is_inactive now repo months = true ↔
      (repo.archived = true ∨ repo.pushed_at = none ∨ repo.pushed_at = some none ∨
        ∃ t, repo.pushed_at = some (some t) ∧ t < now - months * 30 * secondsPerDay) := by
  unfold is_inactive
  by_cases ha : repo.archived
  · simp [ha]
  · cases hp : repo.pushed_at with
    | none => simp [ha, hp]
    | some o =>
      cases o with
      | none => simp [ha, hp]
      | some t => simp [ha, hp]

/-- Claim C8: category assignment depends only on the topics, description and
language fields: two records agreeing on those three receive the same
category, whatever their other fields. -/
theorem C8_category_depends_only_on_text (r1 r2 : Repo)
    (ht : r1.topics = r2.topics) (hd : r1.description = r2.description)
    (hl : r1.language = r2.language) :
    categorize_repo r1 = categorize_repo r2 := by
  have hs : searchText r1 = searchText r2 := by
    simp [searchText, ht, hd, hl]
  simp [categorize_repo, scoreList, catScore, hs]

/-- A twin of `aisleRepo` agreeing on topics, description and language but
differing on stars, timestamp, archived flag, name and url. -/
def aisleTwin : Repo :=
  { name := "other", full_name := "v/other", description := some "Contains Aisle",
    language := none, stargazers_count := 99999, topics := [],
    pushed_at := none, archived := true, homepage := some "https://h",
    html_url := "https://e/other" }

theorem C8_witness :
    categorize_repo aisleRepo = categorize_repo aisleTwin :=
  C8_category_depends_only_on_text aisleRepo aisleTwin rfl rfl rfl

/-- Claim C9: keyword matching is by substring: any keyword of a scored
category occurring anywhere inside the combined searchable text — also
strictly inside an unrelated longer word — contributes to that category's
score. -/
theorem C9_substring_match_scores (repo : Repo) (c : Category) (k : String)
    (_hc : c ∈ nonUtilityCategories) (hk : k ∈ c.keywords)
    (hm : strContains (searchText repo) k = true) :
    1 ≤ catScore repo c := by
  unfold catScore catScoreText
  exact List.countP_pos_iff.mpr ⟨k, hk, hm⟩

theorem C9_witness : 1 ≤ catScore aisleRepo aiMl :=
  C9_substring_match_scores aisleRepo aiMl "ai" (by decide) (by decide) (by decide)

/-- Abstracting `scoreList`: the positively-scoring entries of `L` under the
scoring function `f`, in order. -/
def posScores (f : Category → Nat) (L : List Category) : List (Category × Nat) :=
  L.filterMap (fun c => if f c = 0 then none else some (c, f c))

theorem pickMax_eq_none_iff (l : List (Category × Nat)) :
    pickMax l = none ↔ l = [] := by
  cases l with
  | nil => simp [pickMax]
  | cons p rest =>
    simp only [pickMax]
    constructor
    · intro hc
      exfalso
      cases hrest : pickMax rest with
      | none =>
        rw [hrest] at hc
        simp at hc
      | some q =>
        rw [hrest] at hc
        dsimp only at hc
        revert hc
        split <;> simp
    · intro hc
      simp at hc

theorem posScores_nil_iff (f : Category → Nat) :
    ∀ L : List Category, (posScores f L = [] ↔ ∀ c ∈ L, f c = 0)
  | [] => by simp [posScores]
  | d :: L => by
    have ih := posScores_nil_iff f L
    by_cases h : f d = 0
    · simp only [posScores] at ih
      simp [posScores, List.filterMap_cons, h, ih]
    · simp [posScores, List.filterMap_cons, h]

/-- `pickMax` over the positive scores of `L` returns the first category of
`L` attaining the maximal score: that score is positive, dominates every
score in `L`, and strictly dominates every score before the winner. -/
theorem pickMax_posScores_spec (f : Category → Nat) :
    ∀ (L : List Category) (c : Category) (s : Nat),
      pickMax (posScores f L) = some (c, s) →
      s = f c ∧ 0 < s ∧ (∀ d ∈ L, f d ≤ s) ∧
        ∃ l₁ l₂, L = l₁ ++ c :: l₂ ∧ ∀ d ∈ l₁, f d < s
  | [], c, s => by simp [posScores, pickMax]
  | d :: L, c, s => by
    intro hp
    by_cases h : f d = 0
    · have hrec : pickMax (posScores f L) = some (c, s) := by
        simpa [posScores, List.filterMap_cons, h] using hp
      obtain ⟨hs, hpos, hle, l₁, l₂, hdecomp, hlt⟩ :=
        pickMax_posScores_spec f L c s hrec
      refine ⟨hs, hpos, ?_, d :: l₁, l₂, by rw [hdecomp]; rfl, ?_⟩
      · intro e he
        rcases List.mem_cons.mp he with rfl | he
        · omega
        · exact hle e he
      · intro e he
        rcases List.mem_cons.mp he with rfl | he
        · omega
        · exact hlt e he
    · have hp' : (match pickMax (posScores f L) with
          | none => some (d, f d)
          | some q => if (d, f d).2 < q.2 then some q else some (d, f d)) = some (c, s) := by
        simpa [posScores, List.filterMap_cons, h, pickMax] using hp
      cases hrest : pickMax (posScores f L) with
      | none =>
        rw [hrest] at hp'
        have hzero : ∀ e ∈ L, f e = 0 :=
          (posScores_nil_iff f L).mp ((pickMax_eq_none_iff _).mp hrest)
        have hcs : d = c ∧ f d = s := by
          simpa [Prod.ext_iff] using hp'
        obtain ⟨rfl, hfd⟩ := hcs
        refine ⟨hfd.symm, by omega, ?_, [], L, rfl, by simp⟩
        intro e he
        rcases List.mem_cons.mp he with rfl | he
        · omega
        · have := hzero e he
          omega
      | some q =>
        rw [hrest] at hp'
        obtain ⟨qc, qs⟩ := q
        dsimp only at hp'
        obtain ⟨hqs, hqpos, hqle, m₁, m₂, hmdecomp, hmlt⟩ :=
          pickMax_posScores_spec f L qc qs hrest
        by_cases hcmp : f d < qs
        · rw [if_pos hcmp] at hp'
          have hcs : qc = c ∧ qs = s := by
            simpa [Prod.ext_iff] using hp'
          obtain ⟨rfl, rfl⟩ := hcs
          refine ⟨hqs, hqpos, ?_, d :: m₁, m₂, by rw [hmdecomp]; rfl, ?_⟩
          · intro e he
            rcases List.mem_cons.mp he with rfl | he
            · omega
            · exact hqle e he
          · intro e he
            rcases List.mem_cons.mp he with rfl | he
            · omega
            · exact hmlt e he
        · rw [if_neg hcmp] at hp'
          have hcs : d = c ∧ f d = s := by
            simpa [Prod.ext_iff] using hp'
          obtain ⟨rfl, hfd⟩ := hcs
          simp only [not_lt] at hcmp
          refine ⟨hfd.symm, by omega, ?_, [], L, rfl, by simp⟩
          intro e he
          rcases List.mem_cons.mp he with rfl | he
          · omega
          · have h1 := hqle e he
            omega

/-- Claim C1: `categorize_repo` assigns the category whose keyword score
against the combined searchable text is maximal; among equal nonzero maxima
the category declared first wins; and when every category scores zero the
catch-all `"utilities"` is returned. -/
theorem C1_categorize_spec (repo : Repo) :
    ((∀ c ∈ nonUtilityCategories, catScore repo c = 0) →
        categorize_repo repo = "utilities") ∧
    ((∃ c ∈ nonUtilityCategories, 0 < catScore repo c) →
        ∃ l₁ c l₂, nonUtilityCategories = l₁ ++ c :: l₂ ∧
          categorize_repo repo = c.id ∧ 0 < catScore repo c ∧
          (∀ d ∈ nonUtilityCategories, catScore repo d ≤ catScore repo c) ∧
          (∀ d ∈ l₁, catScore repo d < catScore repo c)) := by
  have hsl : scoreList repo = posScores (catScore repo) nonUtilityCategories := rfl
  constructor
  · intro hz
    have hnil : scoreList repo = [] := by
      rw [hsl]
      exact (posScores_nil_iff _ _).mpr hz
    simp [categorize_repo, hnil, pickMax]
  · rintro ⟨c0, hc0, hpos0⟩
    cases hp : pickMax (scoreList repo) with
    | none =>
      exfalso
      have hnil : scoreList repo = [] := (pickMax_eq_none_iff _).mp hp
      have hz := (posScores_nil_iff (catScore repo) nonUtilityCategories).mp (hsl ▸ hnil)
      have := hz c0 hc0
      omega
    | some q =>
      obtain ⟨c, s⟩ := q
      obtain ⟨hs, hspos, hle, l₁, l₂, hdecomp, hlt⟩ :=
        pickMax_posScores_spec (catScore repo) nonUtilityCategories c s (hsl ▸ hp)
      subst hs
      refine ⟨l₁, c, l₂, hdecomp, ?_, hspos, hle, hlt⟩
      simp [categorize_repo, hp]

/-- A record matching no category keyword at all. -/
def blankRepo : Repo :=
  { name := "z", full_name := "u/z", description := none,
    language := none, stargazers_count := 0, topics := [],
    pushed_at := some (some 0), archived := false, homepage := none,
    html_url := "https://e/z" }

theorem C1_witness : categorize_repo blankRepo = "utilities" :=
  (C1_categorize_spec blankRepo).1 (by decide)

/-- A non-archived record whose push instant sits exactly at the cutoff
`now - 12 * 30` days for `now = 1000000`. -/
def boundaryRepo : Repo :=
  { name := "edge", full_name := "u/edge", description := none,
    language := none, stargazers_count := 0, topics := [],
    pushed_at := some (some (1000000 - 12 * 30 * 86400)), archived := false,
    homepage := none, html_url := "https://e/edge" }

/-- Claim C3 is false on the code: at exactly the cutoff instant the strict
`<` comparison fails, so the classifier marks the record active, not
inactive. -/
theorem C3_counterexample : is_inactive 1000000 boundaryRepo 12 = false := by
  decide

/-- Claim C3 amended: a non-archived record whose last-push instant is
exactly the cutoff `now - months * 30` days is classified active; only
strictly older instants are inactive. -/
theorem C3_cutoff_is_active (now months : Int) (repo : Repo)
    (ha : repo.archived = false)
    (hp : repo.pushed_at = some (some (now - months * 30 * secondsPerDay))) :
    is_inactive now repo months = false := by
  simp [is_inactive, ha, hp]

/-- The boundary record again, phrased with `now = 0`. -/
def boundaryRepoW : Repo :=
  { name := "edge0", full_name := "u/edge0", description := none,
    language := none, stargazers_count := 0, topics := [],
    pushed_at := some (some (0 - 12 * 30 * secondsPerDay)), archived := false,
    homepage := none, html_url := "https://e/edge0" }

theorem C3_witness : is_inactive 0 boundaryRepoW 12 = false :=
  C3_cutoff_is_active 0 12 boundaryRepoW rfl rfl

theorem containsList_nil_needle : ∀ h : List Char, containsList [] h = true
  | [] => rfl
  | _ :: _ => by simp [containsList, isPrefixList]

theorem isPrefixList_self_append : ∀ n y : List Char, isPrefixList n (n ++ y) = true
  | [], _ => rfl
  | a :: ns, y => by simp [isPrefixList, isPrefixList_self_append ns y]

theorem isPrefixList_extend : ∀ n t y : List Char,
    isPrefixList n t = true → isPrefixList n (t ++ y) = true
  | [], _, _, _ => rfl
  | _ :: _, [], _, h => by simp [isPrefixList] at h
  | a :: ns, b :: ts, y, h => by
    simp only [isPrefixList, Bool.and_eq_true] at h
    simp only [List.cons_append, isPrefixList, Bool.and_eq_true]
    exact ⟨h.1, isPrefixList_extend ns ts y h.2⟩

/-- Extending the haystack on the left preserves containment. -/
theorem containsList_append_of (n t : List Char) (h : containsList n t = true) :
    ∀ x : List Char, containsList n (x ++ t) = true
  | [] => h
  | b :: x => by simp [containsList, containsList_append_of n t h x]

/-- Extending the haystack on the right preserves containment. -/
theorem containsList_extend : ∀ t : List Char, ∀ {n : List Char}, ∀ y : List Char,
    containsList n t = true → containsList n (t ++ y) = true
  | [], n, y, h => by
    have hn : n = [] := by
      cases n with
      | nil => rfl
      | cons a ns => simp [containsList] at h
    subst hn
    exact containsList_nil_needle y
  | b :: ts, n, y, h => by
    simp only [containsList, Bool.or_eq_true] at h
    simp only [List.cons_append, containsList, Bool.or_eq_true]
    rcases h with h | h
    · exact Or.inl (by simpa using isPrefixList_extend n (b :: ts) y h)
    · exact Or.inr (containsList_extend ts y h)

theorem strContains_append_left (a b n : String) (h : strContains a n = true) :
    strContains (a ++ b) n = true := by
  unfold strContains at h ⊢
  rw [String.data_append]
  exact containsList_extend a.data b.data h

theorem strContains_append_right (a b n : String) (h : strContains b n = true) :
    strContains (a ++ b) n = true := by
  unfold strContains at h ⊢
  rw [String.data_append]
  exact containsList_append_of n.data b.data h a.data

/-- A record with a whitespace-only (hence truthy, but blank after
stripping) description. -/
def blankDescRepo : Repo :=
  { name := "w", full_name := "u/w", description := some "   ",
    language := none, stargazers_count := 0, topics := [],
    pushed_at := none, archived := false, homepage := none,
    html_url := "https://e/w" }

/-- Claim C4 is false on the code for a description that is blank only after
trimming: the truthy whitespace string suppresses the placeholder, strips to
empty, and is then omitted entirely, so the rendered line carries no
placeholder. -/
theorem C4_counterexample :
    strContains (format_repo_entry 0 blankDescRepo true) "No description provided" = false := by
  decide

/-- Claim C4 amended: the rendered line contains the placeholder exactly for
a falsy raw description, i.e. an absent one or the empty string; a
whitespace-only description instead yields a line with neither description
nor placeholder. -/
theorem C4_placeholder_when_falsy (now : Int) (repo : Repo) (sa : Bool)
    (h : repo.description = none ∨ repo.description = some "") :
    strContains (format_repo_entry now repo sa) "No description provided" = true := by
  have hd : pyStrOr repo.description "No description provided" = "No description provided" := by
    rcases h with h | h <;> simp [pyStrOr, h]
  have hstrip : pyStrip "No description provided" = "No description provided" := by decide
  have hne : pyStrip (pyStrOr repo.description "No description provided") ≠ "" := by
    rw [hd, hstrip]
    decide
  simp only [format_repo_entry, hd, hstrip, if_pos hne]
  apply strContains_append_left
  cases repo.language with
  | none =>
    apply strContains_append_left
    apply strContains_append_left
    apply strContains_append_right
    decide
  | some l =>
    dsimp only
    split
    · apply strContains_append_left
      apply strContains_append_left
      apply strContains_append_left
      apply strContains_append_left
      apply strContains_append_left
      apply strContains_append_right
      decide
    · apply strContains_append_left
      apply strContains_append_left
      apply strContains_append_right
      decide

theorem C4_witness :
    strContains (format_repo_entry 0 blankRepo true) "No description provided" = true :=
  C4_placeholder_when_falsy 0 blankRepo true (Or.inl rfl)

/-- Claim C5: for a record rendered with activity shown (as every category
section does) and a parsable timestamp — which every active record has — the
entry carries the fresh badge iff fewer than 30 days elapsed since the last
push, the recent badge iff at least 30 but fewer than 90 did, and no badge
otherwise; and rendering with activity suppressed (as the legacy section
does) never attaches a badge. -/
theorem C5_freshness_badges (now : Int) (repo : Repo) (t : Int)
    (hp : repo.pushed_at = some (some t))
    (_hact : is_inactive now repo 12 = false) :
    ((activityBadge now repo true = " 🔥" ↔ daysAgo now t < 30) ∧
     (activityBadge now repo true = " ⚡" ↔ (30 ≤ daysAgo now t ∧ daysAgo now t < 90)) ∧
     (activityBadge now repo true = "" ↔ 90 ≤ daysAgo now t)) ∧
    (∀ r : Repo, activityBadge now r false = "") := by
  have hb : activityBadge now repo true =
      (if daysAgo now t < 30 then " 🔥" else if daysAgo now t < 90 then " ⚡" else "") := by
    simp [activityBadge, hp]
  have e1 : (" 🔥" : String) ≠ " ⚡" := by decide
  have e2 : (" 🔥" : String) ≠ "" := by decide
  have e3 : (" ⚡" : String) ≠ "" := by decide
  refine ⟨⟨?_, ?_, ?_⟩, fun r => rfl⟩ <;> rw [hb] <;>
      by_cases h1 : daysAgo now t < 30 <;> by_cases h2 : daysAgo now t < 90 <;>
    simp [h1, h2, e1, e2, e3] <;> omega

/-- A record pushed at the very instant `now = 1000`. -/
def freshRepo : Repo :=
  { name := "f", full_name := "u/f", description := none,
    language := none, stargazers_count := 1, topics := [],
    pushed_at := some (some 1000), archived := false, homepage := none,
    html_url := "https://e/f" }

theorem C5_witness :
    (((activityBadge 1000 freshRepo true = " 🔥" ↔ daysAgo 1000 1000 < 30) ∧
      (activityBadge 1000 freshRepo true = " ⚡" ↔
        (30 ≤ daysAgo 1000 1000 ∧ daysAgo 1000 1000 < 90)) ∧
      (activityBadge 1000 freshRepo true = "" ↔ 90 ≤ daysAgo 1000 1000)) ∧
     (∀ r : Repo, activityBadge 1000 r false = "")) :=
  C5_freshness_badges 1000 freshRepo 1000 rfl (by decide)

theorem sortByStars_cons (x : Repo) (l : List Repo) :
    sortByStars (x :: l) = List.orderedInsert starsGe x (sortByStars l) := rfl

/-- `sortByStars` output is weakly decreasing in star count. -/
theorem sortByStars_chain (l : List Repo) :
    List.Chain' (fun a b => b.stargazers_count ≤ a.stargazers_count) (sortByStars l) :=
  (List.sorted_insertionSort starsGe l).chain'

/-- Inserting `r` puts it in front of every element with the same star
count, so the star-`s` slice either gains `r` at its head or is untouched. -/
theorem filter_orderedInsert_stars (s : Nat) (r : Repo) :
    ∀ l : List Repo,
      (List.orderedInsert starsGe r l).filter (fun x => x.stargazers_count == s) =
        if r.stargazers_count == s
        then r :: l.filter (fun x => x.stargazers_count == s)
        else l.filter (fun x => x.stargazers_count == s)
  | [] => by
    simp only [List.orderedInsert, List.filter_cons, List.filter_nil]
  | b :: l => by
    have ih := filter_orderedInsert_stars s r l
    by_cases hin : starsGe r b
    · simp only [List.orderedInsert, if_pos hin, List.filter_cons]
    · simp only [List.orderedInsert, if_neg hin, List.filter_cons, ih]
      by_cases hr : (r.stargazers_count == s) = true <;>
        by_cases hb : (b.stargazers_count == s) = true
      · exfalso
        simp only [beq_iff_eq] at hr hb
        simp only [starsGe, not_le] at hin
        omega
      · simp [hr, hb]
      · simp [hr, hb]
      · simp [hr, hb]

/-- Stability of `sortByStars`: the records of any fixed star count appear
in the output exactly as they appear in the input. -/
theorem filter_sortByStars (s : Nat) :
    ∀ l : List Repo,
      (sortByStars l).filter (fun x => x.stargazers_count == s) =
        l.filter (fun x => x.stargazers_count == s)
  | [] => rfl
  | x :: l => by
    rw [sortByStars_cons, filter_orderedInsert_stars s x (sortByStars l),
      filter_sortByStars s l, List.filter_cons]

/-- Claim C6: within every rendered group — each category section and the
legacy section — adjacent records have weakly decreasing star counts, and
records of equal star count keep their relative input order (the sort is
stable). -/
theorem C6_groups_sorted_stable (l : List Repo) (s : Nat) (now : Int)
    (st : CatState) (repos : List Repo) :
    List.Chain' (fun a b => b.stargazers_count ≤ a.stargazers_count) (sortByStars l) ∧
    (sortByStars l).filter (fun x => x.stargazers_count == s) =
      l.filter (fun x => x.stargazers_count == s) ∧
    (∀ p ∈ (generate_readme now st repos).2.sections,
      List.Chain' (fun a b => b.stargazers_count ≤ a.stargazers_count) p.2) ∧
    List.Chain' (fun a b => b.stargazers_count ≤ a.stargazers_count)
      (generate_readme now st repos).2.legacy := by
  refine ⟨sortByStars_chain l, filter_sortByStars s l, ?_, ?_⟩
  · intro p hp
    simp only [generate_readme, List.mem_filterMap] at hp
    obtain ⟨a, ha, hif⟩ := hp
    by_cases he : a.2.isEmpty
    · rw [if_pos he] at hif
      simp at hif
    · rw [if_neg he] at hif
      obtain rfl : (titleOf a.1, a.2) = p := by
        injection hif
      simp only [List.mem_map] at ha
      obtain ⟨q, _, rfl⟩ := ha
      exact sortByStars_chain q.2
  · exact sortByStars_chain _

/-- The keys of the category state, in order. -/
def keysOf (st : CatState) : List String :=
  st.map Prod.fst

/-- All records held in the state's buckets, in bucket order. -/
def bucketsJoin (st : CatState) : List Repo :=
  (st.map Prod.snd).flatten

theorem bucketsJoin_cons (p : String × List Repo) (st : CatState) :
    bucketsJoin (p :: st) = p.2 ++ bucketsJoin st := rfl

theorem keysOf_appendRepo (st : CatState) (cid : String) (r : Repo) :
    keysOf (appendRepo st cid r) = keysOf st := by
  unfold keysOf appendRepo
  rw [List.map_map]
  apply List.map_congr_left
  intro p _
  by_cases h : p.1 = cid <;> simp [h]

theorem appendRepo_not_mem (cid : String) (r : Repo) :
    ∀ st : CatState, cid ∉ keysOf st → appendRepo st cid r = st
  | [], _ => rfl
  | p :: st, h => by
    have h1 : ¬(p.1 = cid) := fun he => h (by simp [keysOf, he])
    have h2 : cid ∉ keysOf st := fun hm => h (by
      simp only [keysOf, List.map_cons, List.mem_cons]
      exact Or.inr hm)
    simp only [appendRepo, List.map_cons, if_neg h1]
    have htail := appendRepo_not_mem cid r st h2
    simp only [appendRepo] at htail
    rw [htail]

/-- Appending a record to the bucket of a present key adds exactly that
record to the joined contents, up to permutation. -/
theorem bucketsJoin_appendRepo (cid : String) (r : Repo) :
    ∀ st : CatState, (keysOf st).Nodup → cid ∈ keysOf st →
      (bucketsJoin (appendRepo st cid r)).Perm (r :: bucketsJoin st)
  | [], _, h => absurd h (by simp [keysOf])
  | p :: st, hnd, h => by
    have hnd' : (keysOf st).Nodup ∧ p.1 ∉ keysOf st := by
      have := hnd
      simp only [keysOf, List.map_cons, List.nodup_cons] at this
      exact ⟨this.2, this.1⟩
    by_cases h1 : p.1 = cid
    · have hcid : cid ∉ keysOf st := h1 ▸ hnd'.2
      simp only [appendRepo, List.map_cons, if_pos h1]
      have htail := appendRepo_not_mem cid r st hcid
      simp only [appendRepo] at htail
      rw [htail, bucketsJoin_cons, bucketsJoin_cons]
      rw [List.append_assoc, List.singleton_append]
      exact List.perm_middle
    · have hmem : cid ∈ keysOf st := by
        have h' : cid ∈ p.1 :: keysOf st := h
        rcases List.mem_cons.mp h' with he | hm
        · exact absurd he.symm h1
        · exact hm
      simp only [appendRepo, List.map_cons, if_neg h1]
      have ih := bucketsJoin_appendRepo cid r st hnd'.1 hmem
      rw [show List.map (fun q => if q.1 = cid then (q.1, q.2 ++ [r]) else q) st
            = appendRepo st cid r from rfl]
      rw [bucketsJoin_cons, bucketsJoin_cons]
      exact ((ih.append_left p.2).trans List.perm_middle)

/-- Folding the classification loop over `xs` keeps the state's keys and, up
to permutation, appends exactly `xs` to the state's contents. -/
theorem bucketsJoin_foldl (xs : List Repo) :
    ∀ st : CatState, (keysOf st).Nodup →
      (∀ x : Repo, categorize_repo x ∈ keysOf st) →
      keysOf (xs.foldl (fun s r => appendRepo s (categorize_repo r) r) st) = keysOf st ∧
      (bucketsJoin (xs.foldl (fun s r => appendRepo s (categorize_repo r) r) st)).Perm
        (xs ++ bucketsJoin st) := by
  induction xs with
  | nil => exact fun st _ _ => ⟨rfl, List.Perm.refl _⟩
  | cons x xs ih =>
    intro st hnd hmem
    have hk1 : keysOf (appendRepo st (categorize_repo x) x) = keysOf st :=
      keysOf_appendRepo st (categorize_repo x) x
    obtain ⟨hk, hj⟩ := ih (appendRepo st (categorize_repo x) x)
      (by rw [hk1]; exact hnd) (fun y => by rw [hk1]; exact hmem y)
    refine ⟨by simpa [hk1] using hk, ?_⟩
    simp only [List.foldl_cons]
    have hstep := bucketsJoin_appendRepo (categorize_repo x) x st hnd (hmem x)
    exact hj.trans ((hstep.append_left xs).trans List.perm_middle)

theorem nonUtility_sub_keys (c : Category) (hc : c ∈ nonUtilityCategories) :
    c.id ∈ keysOf initState := by
  have hcc : c ∈ CATEGORIES := (List.mem_filter.mp hc).1
  unfold keysOf initState
  rw [List.map_map]
  exact List.mem_map.mpr ⟨c, hcc, rfl⟩

/-- Every id `categorize_repo` can return is a key of the category table. -/
theorem categorize_mem_keys (r : Repo) : categorize_repo r ∈ keysOf initState := by
  unfold categorize_repo
  cases hp : pickMax (scoreList r) with
  | none =>
    show "utilities" ∈ keysOf initState
    decide
  | some q =>
    obtain ⟨c, s⟩ := q
    show c.id ∈ keysOf initState
    obtain ⟨_, _, _, l₁, l₂, hdecomp, _⟩ :=
      pickMax_posScores_spec (catScore r) nonUtilityCategories c s hp
    refine nonUtility_sub_keys c ?_
    rw [hdecomp]
    exact List.mem_append_right l₁ (List.mem_cons_self c l₂)

/-- Dropping the empty buckets does not change the joined contents. -/
theorem sections_join :
    ∀ st : CatState,
      ((st.filterMap (fun p => if p.2.isEmpty then none else some (titleOf p.1, p.2))).map
          Prod.snd).flatten = bucketsJoin st
  | [] => rfl
  | p :: st => by
    by_cases h : p.2.isEmpty
    · have hnil : p.2 = [] := List.isEmpty_iff.mp h
      simp only [List.filterMap_cons, if_pos h, bucketsJoin_cons, hnil, List.nil_append]
      exact sections_join st
    · simp only [List.filterMap_cons, if_neg h, List.map_cons, List.flatten_cons,
        bucketsJoin_cons]
      rw [sections_join st]

/-- Sorting every bucket permutes the joined contents. -/
theorem bucketsJoin_sort_perm :
    ∀ st : CatState,
      (bucketsJoin (st.map (fun p => (p.1, sortByStars p.2)))).Perm (bucketsJoin st)
  | [] => List.Perm.refl _
  | p :: st => by
    simp only [List.map_cons, bucketsJoin_cons]
    exact (List.perm_insertionSort starsGe p.2).append (bucketsJoin_sort_perm st)

theorem keysOf_sortMap (st : CatState) :
    keysOf (st.map (fun p => (p.1, sortByStars p.2))) = keysOf st := by
  unfold keysOf
  rw [List.map_map]
  apply List.map_congr_left
  intro p _
  rfl

theorem generate_readme_fst (now : Int) (st : CatState) (repos : List Repo) :
    (generate_readme now st repos).1 =
      ((repos.filter (fun r => !is_inactive now r 12)).foldl
          (fun s r => appendRepo s (categorize_repo r) r) st).map
        (fun p => (p.1, sortByStars p.2)) := rfl

theorem generate_readme_sections_eq (now : Int) (st : CatState) (repos : List Repo) :
    (generate_readme now st repos).2.sections =
      ((generate_readme now st repos).1).filterMap
        (fun p => if p.2.isEmpty then none else some (titleOf p.1, p.2)) := rfl

theorem generate_readme_legacy_eq (now : Int) (st : CatState) (repos : List Repo) :
    (generate_readme now st repos).2.legacy =
      sortByStars (repos.filter (fun r => is_inactive now r 12)) := rfl

theorem bucketsJoin_initState : bucketsJoin initState = [] := rfl

/-- Claim C7: starting from the freshly loaded (empty) category table, the
sections together hold exactly the active records — each active record lands
in exactly one bucket — the legacy list holds exactly the inactive records,
and active/inactive is a partition of the input. -/
theorem C7_partition (now : Int) (repos : List Repo) :
    ((((generate_readme now initState repos).2.sections).map Prod.snd).flatten).Perm
        (repos.filter (fun r => !is_inactive now r 12)) ∧
    ((generate_readme now initState repos).2.legacy).Perm
        (repos.filter (fun r => is_inactive now r 12)) ∧
    ((repos.filter (fun r => !is_inactive now r 12)) ++
        repos.filter (fun r => is_inactive now r 12)).Perm repos := by
  have hnd : (keysOf initState).Nodup := by decide
  obtain ⟨hk, hj⟩ := bucketsJoin_foldl (repos.filter (fun r => !is_inactive now r 12))
    initState hnd categorize_mem_keys
  refine ⟨?_, ?_, ?_⟩
  · rw [generate_readme_sections_eq, generate_readme_fst, sections_join]
    have h1 := bucketsJoin_sort_perm ((repos.filter (fun r => !is_inactive now r 12)).foldl
      (fun s r => appendRepo s (categorize_repo r) r) initState)
    have h2 := hj
    rw [bucketsJoin_initState, List.append_nil] at h2
    exact h1.trans h2
  · rw [generate_readme_legacy_eq]
    exact List.perm_insertionSort starsGe _
  · have h3 := List.filter_append_perm (fun r => !is_inactive now r 12) repos
    simpa [Bool.not_not] using h3

/-- Total number of records rendered across the category sections. -/
def sectionsSize (d : Doc) : Nat :=
  ((d.sections.map Prod.snd).flatten).length

theorem sectionsSize_generate (now : Int) (st : CatState) (repos : List Repo)
    (hnd : (keysOf st).Nodup) (hmem : ∀ x : Repo, categorize_repo x ∈ keysOf st) :
    sectionsSize (generate_readme now st repos).2 =
      (repos.filter (fun r => !is_inactive now r 12)).length + (bucketsJoin st).length := by
  obtain ⟨hk, hj⟩ :=
    bucketsJoin_foldl (repos.filter (fun r => !is_inactive now r 12)) st hnd hmem
  unfold sectionsSize
  rw [generate_readme_sections_eq, generate_readme_fst, sections_join]
  have h1 := (bucketsJoin_sort_perm _).trans hj
  rw [h1.length_eq, List.length_append]

theorem keysOf_generate (now : Int) (st : CatState) (repos : List Repo) :
    keysOf (generate_readme now st repos).1 =
      keysOf ((repos.filter (fun r => !is_inactive now r 12)).foldl
        (fun s r => appendRepo s (categorize_repo r) r) st) := by
  rw [generate_readme_fst, keysOf_sortMap]

/-- Claim C10: `generate_readme` appends the classified active records to the
module-global category table and never clears it, so two successive calls on
the same input produce different documents as soon as the input has an active
record: the second document's sections contain the first call's records
again. -/
theorem C10_not_idempotent (now : Int) (repos : List Repo)
    (h : ∃ r ∈ repos, is_inactive now r 12 = false) :
    (generate_readme now (generate_readme now initState repos).1 repos).2 ≠
      (generate_readme now initState repos).2 := by
  have hnd0 : (keysOf initState).Nodup := by decide
  have hmem0 : ∀ x : Repo, categorize_repo x ∈ keysOf initState := categorize_mem_keys
  have hkeys1 : keysOf (generate_readme now initState repos).1 = keysOf initState := by
    rw [keysOf_generate]
    exact (bucketsJoin_foldl _ initState hnd0 hmem0).1
  have hnd1 : (keysOf (generate_readme now initState repos).1).Nodup := by
    rw [hkeys1]; exact hnd0
  have hmem1 : ∀ x : Repo, categorize_repo x ∈ keysOf (generate_readme now initState repos).1 :=
    fun x => by rw [hkeys1]; exact hmem0 x
  have hsize1 : sectionsSize (generate_readme now initState repos).2 =
      (repos.filter (fun r => !is_inactive now r 12)).length := by
    rw [sectionsSize_generate now initState repos hnd0 hmem0, bucketsJoin_initState]
    simp
  have hjoin1 : (bucketsJoin (generate_readme now initState repos).1).length =
      (repos.filter (fun r => !is_inactive now r 12)).length := by
    have hperm := (bucketsJoin_sort_perm _).trans
      (bucketsJoin_foldl (repos.filter (fun r => !is_inactive now r 12))
        initState hnd0 hmem0).2
    rw [generate_readme_fst]
    rw [hperm.length_eq, bucketsJoin_initState, List.append_nil]
  have hsize2 : sectionsSize (generate_readme now (generate_readme now initState repos).1 repos).2 =
      (repos.filter (fun r => !is_inactive now r 12)).length +
        (repos.filter (fun r => !is_inactive now r 12)).length := by
    rw [sectionsSize_generate now _ repos hnd1 hmem1, hjoin1]
  have hpos : 0 < (repos.filter (fun r => !is_inactive now r 12)).length := by
    obtain ⟨r, hr, hf⟩ := h
    have hmemf : r ∈ repos.filter (fun r => !is_inactive now r 12) :=
      List.mem_filter.mpr ⟨hr, by simp [hf]⟩
    exact List.length_pos.mpr (List.ne_nil_of_mem hmemf)
  intro heq
  rw [heq, hsize1] at hsize2
  omega

/-- A one-record, active input for exercising the double-call behaviour. -/
def activeSolo : Repo :=
  { name := "g", full_name := "u/g", description := none,
    language := none, stargazers_count := 2, topics := [],
    pushed_at := some (some 1000), archived := false, homepage := none,
    html_url := "https://e/g" }

theorem C10_witness :
    (generate_readme 1000 (generate_readme 1000 initState [activeSolo]).1 [activeSolo]).2 ≠
      (generate_readme 1000 initState [activeSolo]).2 :=
  C10_not_idempotent 1000 [activeSolo] ⟨activeSolo, by decide, by decide⟩

/-- An archived record. -/
def archivedRepo : Repo :=
  { name := "old", full_name := "u/old", description := none,
    language := none, stargazers_count := 3, topics := [],
    pushed_at := some (some 0), archived := true, homepage := none,
    html_url := "https://e/old" }

theorem C2_witness : is_inactive 5 archivedRepo 12 = true :=
  (C2_is_inactive_iff 5 12 archivedRepo).mpr (Or.inl rfl)

theorem C6_witness :
    List.Chain' (fun a b => b.stargazers_count ≤ a.stargazers_count)
      (sortByStars [activeSolo, freshRepo]) :=
  (C6_groups_sorted_stable [activeSolo, freshRepo] 0 0 initState []).1

theorem C7_witness :
    ((((generate_readme 1000 initState [activeSolo]).2.sections).map Prod.snd).flatten).Perm
      ([activeSolo].filter (fun r => !is_inactive 1000 r 12)) :=
  (C7_partition 1000 [activeSolo]).1
